import Mathlib

/-!
# go-eventlog: digest verification, register configuration and replay

A shallow embedding of `extract/util.go` and `extract/registerconfig.go`,
together with the replay contract exercised by `ccel/replay_test.go`.

Byte slices are lists of bytes.  A Go `error` result is an `Except Err Unit`
(`.ok ()` is `nil`); every error value built by the source has its own
constructor of `Err`, and `Err.Error` renders the message the source formats.
Code of the Go standard library (`crypto`, `hash`, `bytes`, `encoding/hex`) is
modelled by its documented contract; the digest functions themselves are
parameters.
-/

set_option autoImplicit false

/-- One byte of a Go byte slice. -/
abbrev Byte := Fin 256

/-- A Go byte slice, read as the sequence of its bytes. -/
abbrev Bytes := List Byte

namespace bytes

/-- Go `bytes.Equal`: same length and same bytes (a nil slice equals an empty one). -/
def Equal (a b : Bytes) : Bool := decide (a = b)

end bytes

namespace hex

/-- One lower-case hexadecimal digit, for a value below sixteen. -/
def digit (n : Nat) : Char :=
  if n < 10 then Char.ofNat (48 + n) else Char.ofNat (87 + n)

/-- Go `hex.EncodeToString`: two lower-case hexadecimal digits per byte. -/
def EncodeToString (src : Bytes) : String :=
  String.mk (src.flatMap fun b => [digit (b.val / 16), digit (b.val % 16)])

end hex

namespace hash

/-- Go `hash.Hash`, by the contract of the interface: a running hash is the
digest function of its algorithm together with the bytes written since the
last reset. -/
structure Hash where
  /-- Digest function of the algorithm, applied to everything written so far. -/
  digest : Bytes → Bytes
  /-- Bytes absorbed since the last reset. -/
  written : Bytes

/-- Go `Reset`: back to the initial state of the algorithm. -/
def Hash.Reset (h : Hash) : Hash := { h with written := [] }

/-- Go `Write`: adds more data to the running hash. -/
def Hash.Write (h : Hash) (p : Bytes) : Hash := { h with written := h.written ++ p }

/-- Go `Sum`: appends the current digest to `b`; the running state is unchanged. -/
def Hash.Sum (h : Hash) (b : Bytes) : Bytes := b ++ h.digest h.written

end hash

namespace crypto

/-- The three digest algorithms of the Go standard library that the package
uses, as parameters: each is a function from the hashed bytes to a digest of
the fixed size of its algorithm. -/
structure Algorithms where
  /-- SHA-1 of a byte string. -/
  sha1 : Bytes → Bytes
  /-- SHA-256 of a byte string. -/
  sha256 : Bytes → Bytes
  /-- SHA-384 of a byte string. -/
  sha384 : Bytes → Bytes
  sha1_size : ∀ b, (sha1 b).length = 20
  sha256_size : ∀ b, (sha256 b).length = 32
  sha384_size : ∀ b, (sha384 b).length = 48

/-- Go `crypto.SHA1.Size()`. -/
def SHA1_Size : Nat := 20

/-- Go `crypto.SHA256.Size()`. -/
def SHA256_Size : Nat := 32

/-- Go `crypto.SHA384.Size()`. -/
def SHA384_Size : Nat := 48

/-- Go `crypto.SHA1.New()`: a fresh SHA-1 running hash. -/
def SHA1_New (A : Algorithms) : hash.Hash := { digest := A.sha1, written := [] }

/-- Go `crypto.SHA256.New()`: a fresh SHA-256 running hash. -/
def SHA256_New (A : Algorithms) : hash.Hash := { digest := A.sha256, written := [] }

/-- Go `crypto.SHA384.New()`: a fresh SHA-384 running hash. -/
def SHA384_New (A : Algorithms) : hash.Hash := { digest := A.sha384, written := [] }

/-- A small total instance of `Algorithms` on which the definitions can be run:
every digest is the byte sum of the input (plus a tag per algorithm), repeated
to the size of the algorithm.  It is not a cryptographic hash; the general
theorems quantify over all instances. -/
def sample : Algorithms where
  sha1 b := List.replicate 20 (b.foldl (· + ·) 1)
  sha256 b := List.replicate 32 (b.foldl (· + ·) 2)
  sha384 b := List.replicate 48 (b.foldl (· + ·) 3)
  sha1_size _ := List.length_replicate _ _
  sha256_size _ := List.length_replicate _ _
  sha384_size _ := List.length_replicate _ _

end crypto

namespace tcg

/-- Go `tcg.EventType`, a 32-bit event type code. -/
abbrev EventType := Nat

/-- Modelled from the spec: the type `tcg.Event` is declared outside the given
sources.  It is the immutable record of the data model: sequence number,
register index, event type, raw data bytes and recorded digest bytes. -/
structure Event where
  /-- Sequence number of the event in the log (`Num()`). -/
  Num : Nat
  /-- Register index in the numbering of the log (`MRIndex()`). -/
  MRIndex : Nat
  /-- Event type (the field `Type`). -/
  Typ : EventType
  /-- Raw data bytes. -/
  Data : Bytes
  /-- Recorded digest bytes. -/
  Digest : Bytes
deriving DecidableEq, Repr

/-- Modelled from the spec: the method `ReplayedDigest` of `tcg.Event` is
declared outside the given sources; it yields the recorded digest of the event. -/
def Event.ReplayedDigest (e : Event) : Bytes := e.Digest

end tcg

namespace extract

/-- The error values built in `util.go`, one constructor per construction site. -/
inductive Err where
  /-- `errors.New("no digests present")`. -/
  | noDigestsPresent
  /-- `fmt.Errorf("cannot compare hash of length %d", len(digest))`. -/
  | cannotCompare (len : Nat)
  /-- `fmt.Errorf("digest (len %d) does not match", len(digest))`. -/
  | doesNotMatch (len : Nat)
  /-- `errors.New("given data is not null-terminated")`. -/
  | notNullTerminated
  /-- `fmt.Errorf("invalid digest: %s", hex.EncodeToString(digest))`. -/
  | invalidDigest (digest : Bytes)
deriving DecidableEq, Repr

/-- The message of an error value, as the source formats it. -/
def Err.Error : Err → String
  | .noDigestsPresent => "no digests present"
  | .cannotCompare n => "cannot compare hash of length " ++ toString n
  | .doesNotMatch n => "digest (len " ++ toString n ++ ") does not match"
  | .notNullTerminated => "given data is not null-terminated"
  | .invalidDigest d => "invalid digest: " ++ hex.EncodeToString d

/-- `DigestEquals` of `util.go`: an error unless the digest of the event matches
the slice.  The `switch` on the digest length is the chain of its cases in
source order; a case whose comparison fails leaves the `switch` and reaches the
final `return`. -/
def DigestEquals (A : crypto.Algorithms) (e : tcg.Event) (b : Bytes) : Except Err Unit :=
  let digest := e.ReplayedDigest
  if digest.length = 0 then
    .error .noDigestsPresent
  else if digest.length = crypto.SHA384_Size then
    let hasher := (crypto.SHA384_New A).Write b
    if bytes.Equal (hasher.Sum []) digest then .ok ()
    else .error (.doesNotMatch digest.length)
  else if digest.length = crypto.SHA256_Size then
    let s := A.sha256 b
    if bytes.Equal s digest then .ok ()
    else .error (.doesNotMatch digest.length)
  else if digest.length = crypto.SHA1_Size then
    let s := A.sha1 b
    if bytes.Equal s digest then .ok ()
    else .error (.doesNotMatch digest.length)
  else
    .error (.cannotCompare digest.length)

/-- `verifyDataDigest` of `util.go`: resets the hasher, writes the data and
compares the digest with the sum; the deferred `Reset` runs on both returns.
The result is paired with the state the hasher is left in. -/
def verifyDataDigest (hasher : hash.Hash) (data digest : Bytes) :
    Except Err Unit × hash.Hash :=
  let h1 := hasher.Reset
  let h2 := h1.Write data
  if !bytes.Equal digest (h2.Sum []) then
    (.error (.invalidDigest digest), h2.Reset)
  else
    (.ok (), h2.Reset)

/-- `verifyNullTerminatedDataDigest` of `util.go`.  The index `len(data)-1` is
read only when `len(data) == 0` is false, as the short-circuit `||` does, and
the read is in bounds by that test.  The result is paired with the state the
hasher is left in. -/
def verifyNullTerminatedDataDigest (hasher : hash.Hash) (data digest : Bytes) :
    Except Err Unit × hash.Hash :=
  if h : data.length = 0 then
    (.error .notNullTerminated, hasher)
  else if data[data.length - 1] ≠ 0 then
    (.error .notNullTerminated, hasher)
  else
    match verifyDataDigest hasher data digest with
    | (.error _, h1) =>
      match verifyDataDigest h1 (data.take (data.length - 1)) digest with
      | (.error err, h2) => (.error err, h2)
      | (.ok _, h2) => (.ok (), h2)
    | (.ok _, h1) => (.ok (), h1)

/-- An event that carries nothing but a recorded digest. -/
def eventWithDigest (d : Bytes) : tcg.Event :=
  { Num := 0, MRIndex := 0, Typ := 0, Data := [], Digest := d }

end extract

/-! ## Register configuration (`extract/registerconfig.go`) -/

namespace crypto

/-- Go `crypto.Hash`, the identifier of a hash algorithm. -/
abbrev Hash := Nat

end crypto

namespace tcg

/-! Modelled from the spec: the event-type catalogue of package `tcg` is
declared outside the given sources.  The codes below are those of the "TCG PC
Client Platform Firmware Profile Specification" that `registerconfig.go`
cites. -/

/-- Modelled from the spec: event type `EV_SEPARATOR`. -/
def Separator : EventType := 0x00000004
/-- Modelled from the spec: event type `EV_CPU_MICROCODE`. -/
def CPUMicrocode : EventType := 0x00000009
/-- Modelled from the spec: event type `EV_PLATFORM_CONFIG_FLAGS`. -/
def PlatformConfigFlags : EventType := 0x0000000A
/-- Modelled from the spec: event type `EV_TABLE_OF_DEVICES`. -/
def TableOfDevices : EventType := 0x0000000B
/-- Modelled from the spec: event type `EV_NONHOST_CONFIG`. -/
def NonhostConfig : EventType := 0x00000010
/-- Modelled from the spec: event type `EV_EFI_VARIABLE_DRIVER_CONFIG`. -/
def EFIVariableDriverConfig : EventType := 0x80000001
/-- Modelled from the spec: event type `EV_EFI_VARIABLE_BOOT`. -/
def EFIVariableBoot : EventType := 0x80000002
/-- Modelled from the spec: event type `EV_EFI_ACTION`. -/
def EFIAction : EventType := 0x80000007
/-- Modelled from the spec: event type `EV_EFI_PLATFORM_FIRMWARE_BLOB2`. -/
def EFIPlatformFirmwareBlob2 : EventType := 0x8000000A
/-- Modelled from the spec: event type `EV_EFI_HANDOFF_TABLES2`. -/
def EFIHandoffTables2 : EventType := 0x8000000B
/-- Modelled from the spec: event type `EV_EFI_VARIABLE_BOOT2`. -/
def EFIVariableBoot2 : EventType := 0x8000000C

end tcg

namespace pb

/-- Modelled from the spec: `pb.LogType` is declared outside the given sources;
it tags the kind of event log. -/
inductive LogType where
  | LogType_UNDEFINED
  | LogType_TCG2
  | LogType_CC
deriving DecidableEq, Repr

/-- Modelled from the spec: `pb.GCEConfidentialTechnology` is declared outside
the given sources; it is the confidential-computing technology tag. -/
inductive GCEConfidentialTechnology where
  | NONE
  | AMD_SEV
  | AMD_SEV_ES
  | INTEL_TDX
  | AMD_SEV_SNP
deriving DecidableEq, Repr

/-- Modelled from the spec: `pb.PlatformState` is declared outside the given
sources; the platform identity state, of which the source sets the technology
tag. -/
structure PlatformState where
  Technology : GCEConfidentialTechnology := .NONE
deriving DecidableEq, Repr

/-- Modelled from the spec: `pb.GrubState` is declared outside the given
sources; the bootloader state, an ordered sequence of file measurements and of
command lines. -/
structure GrubState where
  Files : List (Bytes × Bytes) := []
  Commands : List String := []
deriving DecidableEq, Repr

end pb

namespace extract

/-- Go `map[tcg.EventType]bool`: the entries of the map literal, in source
order (a nil map has none). -/
abbrev EventTypeSet := List (tcg.EventType × Bool)

/-- Go map index expression `m[t]` on a `map[tcg.EventType]bool`: the stored
value, or `false` (the zero value) when the key is absent. -/
def EventTypeSet.lookup (m : EventTypeSet) (t : tcg.EventType) : Bool :=
  (List.lookup t m).getD false

/-- The type `registerConfig` of `registerconfig.go`. -/
structure registerConfig where
  Name : String
  FirmwareDriverIdx : Nat
  SecureBootIdx : Nat
  EFIAppIdx : Nat
  ExitBootServicesIdx : Nat
  GRUBCmdIdx : Nat
  GRUBFileIdx : Nat
  GRUBExtracter : crypto.Hash → List tcg.Event → Except String pb.GrubState
  PlatformExtracter : crypto.Hash → List tcg.Event → Except String pb.PlatformState
  AdditionalSecureBootIdxEvents : EventTypeSet
  LogType : pb.LogType

/-- The functions of package `extract` that the two configurations refer to and
that are declared outside the given sources, as parameters. -/
structure Extracters where
  GrubStateFromTPMLog : crypto.Hash → List tcg.Event → Except String pb.GrubState
  GrubStateFromRTMRLog : crypto.Hash → List tcg.Event → Except String pb.GrubState
  PlatformState : crypto.Hash → List tcg.Event → Except String pb.PlatformState

/-- `TPMRegisterConfig` of `registerconfig.go`; the omitted field
`AdditionalSecureBootIdxEvents` is the nil map. -/
def TPMRegisterConfig (X : Extracters) : registerConfig where
  Name := "PCR"
  FirmwareDriverIdx := 2
  SecureBootIdx := 7
  EFIAppIdx := 4
  ExitBootServicesIdx := 5
  GRUBCmdIdx := 8
  GRUBFileIdx := 9
  GRUBExtracter := X.GrubStateFromTPMLog
  PlatformExtracter := X.PlatformState
  AdditionalSecureBootIdxEvents := []
  LogType := .LogType_TCG2

/-- `RTMRRegisterConfig` of `registerconfig.go`. -/
def RTMRRegisterConfig (X : Extracters) : registerConfig where
  Name := "RTMR"
  FirmwareDriverIdx := 2
  SecureBootIdx := 1
  EFIAppIdx := 2
  ExitBootServicesIdx := 2
  GRUBCmdIdx := 3
  GRUBFileIdx := 3
  GRUBExtracter := X.GrubStateFromRTMRLog
  PlatformExtracter := fun _ _ => .ok { Technology := .INTEL_TDX }
  AdditionalSecureBootIdxEvents := [
    (tcg.CPUMicrocode, true),
    (tcg.PlatformConfigFlags, true),
    (tcg.TableOfDevices, true),
    (tcg.NonhostConfig, true),
    (tcg.EFIVariableDriverConfig, true),
    (tcg.EFIVariableBoot, true),
    (tcg.EFIAction, true),
    (tcg.EFIHandoffTables2, true),
    (tcg.EFIVariableBoot2, true),
    (tcg.EFIPlatformFirmwareBlob2, true)]
  LogType := .LogType_CC

end extract

/-! ## Replay contract (exercised by `ccel/replay_test.go`)

The replay engine itself is declared outside the given sources; the
definitions of this section follow section 4.3 of the specification. -/

namespace ccel

/-- Modelled from the spec: the replay engine is declared outside the given
sources.  What the contract leaves to the technology: the size of its digest
(the initial accumulator is the all-zero digest of that size) and the hash
algorithm implied by a digest length. -/
structure Technology where
  /-- Size in bytes of the digest of the technology. -/
  size : Nat
  /-- Hash algorithm implied by the length of an event digest. -/
  implied : Nat → Bytes → Bytes

/-- Modelled from the spec: the register bank, declared outside the given
sources; a mapping from register index to expected final digest, as the list
of its entries. -/
abbrev RegisterBank := List (Nat × Bytes)

/-- Modelled from the spec: the replay-integrity errors of the replay engine,
declared outside the given sources: chained-digest mismatch (names the register
index), duplicate separator (names the sequence number of the offending event)
and register-set mismatch between log and bank. -/
inductive ReplayErr where
  | replayFailure (index : Nat)
  | duplicateSeparator (num : Nat)
  | registerSetMismatch (index : Nat)
deriving DecidableEq, Repr

/-- Modelled from the spec: the message of a replay error, declared outside the
given sources.  The specification and the test fix the wording "duplicate
separator at event N"; of the other two it says only that they name the
register index. -/
def ReplayErr.Error : ReplayErr → String
  | .replayFailure i => "replay failure at register " ++ toString i
  | .duplicateSeparator n => "duplicate separator at event " ++ toString n
  | .registerSetMismatch i => "register set mismatch at register " ++ toString i

/-- Modelled from the spec: the initial accumulator, the all-zero digest of the
size of the algorithm (the replay engine is declared outside the given
sources). -/
def initial (T : Technology) : Bytes := List.replicate T.size 0

/-- Modelled from the spec: one chaining step of the replay engine (declared
outside the given sources), `hash(accumulator ‖ event.digest)` with the
algorithm implied by the digest length of the event. -/
def extend (T : Technology) (acc : Bytes) (e : tcg.Event) : Bytes :=
  T.implied e.Digest.length (acc ++ e.Digest)

/-- Modelled from the spec: the events assigned to a register, in log order
(the replay engine is declared outside the given sources). -/
def eventsOf (log : List tcg.Event) (index : Nat) : List tcg.Event :=
  log.filter fun e => decide (e.MRIndex = index)

/-- Modelled from the spec: the register indices present in the log, each once,
in the order of their first event (the replay engine is declared outside the
given sources). -/
def registerIndices : List tcg.Event → List Nat
  | [] => []
  | e :: es => e.MRIndex :: (registerIndices es).filter fun i => decide (i ≠ e.MRIndex)

/-- Modelled from the spec: chaining of the events of one register by the
replay engine (declared outside the given sources).  `seen` records that a
Separator event was met on this register; a second one fails at once with its
sequence number. -/
def chain (T : Technology) : Bytes → Bool → List tcg.Event → Except ReplayErr Bytes
  | acc, _, [] => .ok acc
  | acc, seen, e :: es =>
    if e.Typ = tcg.Separator ∧ seen = true then
      .error (.duplicateSeparator e.Num)
    else
      chain T (extend T acc e) (seen || decide (e.Typ = tcg.Separator)) es

/-- Modelled from the spec: chaining of every register of the list by the
replay engine (declared outside the given sources), each from the initial
accumulator over its own events in log order. -/
def chainAll (T : Technology) (log : List tcg.Event) :
    List Nat → Except ReplayErr (List (Nat × Bytes))
  | [] => .ok []
  | r :: rs =>
    match chain T (initial T) false (eventsOf log r) with
    | .error err => .error err
    | .ok d =>
      match chainAll T log rs with
      | .error err => .error err
      | .ok rest => .ok ((r, d) :: rest)

/-- Modelled from the spec: the comparison of the chained digests with the
register bank by the replay engine (declared outside the given sources).  A
register of the log without bank entry fails closed; a mismatch is a replay
failure naming the register index. -/
def compare (bank : RegisterBank) : List (Nat × Bytes) → Except ReplayErr Unit
  | [] => .ok ()
  | (r, d) :: rest =>
    match bank.lookup r with
    | none => .error (.registerSetMismatch r)
    | some expected =>
      if expected = d then compare bank rest else .error (.replayFailure r)

/-- Modelled from the spec: `replay(eventLog, registerBank)` of the replay
engine, declared outside the given sources.  Events are grouped by register
index in log order and chained, a second Separator on a register failing at
once; then a register of the bank that is absent from the log fails, and every
chained digest is compared with its bank entry.  The result is the list of
per-register verified digests. -/
def replay (T : Technology) (log : List tcg.Event) (bank : RegisterBank) :
    Except ReplayErr (List (Nat × Bytes)) :=
  match chainAll T log (registerIndices log) with
  | .error err => .error err
  | .ok digests =>
    match bank.find? fun entry => !(registerIndices log).contains entry.1 with
    | some entry => .error (.registerSetMismatch entry.1)
    | none =>
      match compare bank digests with
      | .error err => .error err
      | .ok _ => .ok digests

/-- The chained digest of a register as the claims word it: the accumulator
starts at all-zero and is updated as `hash(accumulator ‖ event.digest)` over the
events of the register in log order. -/
def chainedDigest (T : Technology) (log : List tcg.Event) (index : Nat) : Bytes :=
  (eventsOf log index).foldl (fun acc e => T.implied e.Digest.length (acc ++ e.Digest))
    (List.replicate T.size 0)

/-- The Separator events among a list of events, in order. -/
def separators (events : List tcg.Event) : List tcg.Event :=
  events.filter fun e => decide (e.Typ = tcg.Separator)

/-- Number of Separator events that the log assigns to a register. -/
def separatorCount (log : List tcg.Event) (index : Nat) : Nat :=
  (separators (eventsOf log index)).length

/-- A technology on which the definitions can be run: 48-byte digests, and the
toy digest functions of `crypto.sample` chosen by digest length. -/
def sampleTechnology : Technology where
  size := 48
  implied n :=
    if n = 20 then crypto.sample.sha1 else if n = 32 then crypto.sample.sha256
    else crypto.sample.sha384

/-- Modelled from the spec: the invariant of the register bank in the data
model ("one entry per register index actually used by the log"), as far as the
replay needs it: the register indices of the bank are those of the log. -/
def sameRegisters (log : List tcg.Event) (bank : RegisterBank) : Prop :=
  (∀ r ∈ bank.map Prod.fst, r ∈ registerIndices log) ∧
  (∀ r ∈ registerIndices log, r ∈ bank.map Prod.fst)

/-- An event whose recorded digest is the toy SHA-384 digest of its data. -/
def measuredEvent (num index : Nat) (typ : tcg.EventType) (data : Bytes) : tcg.Event :=
  { Num := num, MRIndex := index, Typ := typ, Data := data,
    Digest := crypto.sample.sha384 data }

/-- A Separator event with the given sequence number and register index. -/
def separatorEvent (num index : Nat) : tcg.Event :=
  { Num := num, MRIndex := index, Typ := tcg.Separator, Data := [0, 0, 0, 0],
    Digest := List.replicate 48 1 }

end ccel

/-! ## Extraction contract (exercised by `ccel/replay_test.go`)

The extraction engine and `ReplayAndExtract` are declared outside the given
sources; the definitions of this section follow section 4.4 of the
specification, with the decoders it does not describe as parameters. -/

namespace pb

/-- Modelled from the spec: `pb.SecureBootState` is declared outside the given
sources; the secure-boot state record, an enabled flag and the list of the
values of the UEFI variables that were measured. -/
structure SecureBootState where
  Enabled : Bool
  Variables : List Bytes
deriving DecidableEq, Repr

/-- Modelled from the spec: `pb.FirmwareLogState` is declared outside the given
sources; the three structured artifacts of one extraction. -/
structure FirmwareLogState where
  SecureBoot : SecureBootState
  Grub : GrubState
  Platform : PlatformState
deriving DecidableEq, Repr

end pb

namespace extract

/-- Modelled from the spec: the loader option, declared outside the given
sources; GRUB, or the default that no extraction supports. -/
inductive Bootloader where
  | UnsupportedLoader
  | GRUB
deriving DecidableEq, Repr

/-- Modelled from the spec: the extraction options `Opts`, declared outside the
given sources; the fields are those the test sets, with the Go zero values as
defaults. -/
structure Opts where
  Loader : Bootloader := .UnsupportedLoader
  AllowEmptySBVar : Bool := false
deriving DecidableEq, Repr

/-- Modelled from the spec: the extraction-content errors of the extraction
engine, declared outside the given sources. -/
inductive ExtractErr where
  | unsupportedLoader
  | emptySecureBootVariables
  | secureBoot (msg : String)
  | grub (msg : String)
  | platform (msg : String)
deriving DecidableEq, Repr

/-- Modelled from the spec: the decoding of secure-boot events is declared
outside the given sources and the specification does not describe it; what it
needs of it, as parameters: which events define a UEFI variable, the decoding
of one such event to the value of its variable (which verifies the payload
against the recorded digest and fails on a mismatch or a malformed payload),
and the decoding of the enabled flag from the events of the role (which may
fail as well). -/
structure SecureBootDecoder where
  definesVariable : tcg.Event → Bool
  decodeVariable : tcg.Event → Except String Bytes
  decodeEnabled : List tcg.Event → Except String Bool

/-- Modelled from the spec: the secure-boot role of the extraction engine,
declared outside the given sources.  It slices the events of the secure-boot
register index and decodes the UEFI-variable-defining ones, a failed decoding
being an error; an empty variable set is an error unless `AllowEmptySBVar` is
set; then the enabled flag is decoded. -/
def SecureBootState (D : SecureBootDecoder) (events : List tcg.Event)
    (cfg : registerConfig) (opts : Opts) : Except ExtractErr pb.SecureBootState :=
  let slice := events.filter fun e => decide (e.MRIndex = cfg.SecureBootIdx)
  match (slice.filter D.definesVariable).mapM D.decodeVariable with
  | .error msg => .error (.secureBoot msg)
  | .ok values =>
    if values.isEmpty && !opts.AllowEmptySBVar then
      .error .emptySecureBootVariables
    else
      match D.decodeEnabled slice with
      | .error msg => .error (.secureBoot msg)
      | .ok enabled => .ok { Enabled := enabled, Variables := values }

/-- Modelled from the spec: `extract(verifiedEventLog, technology, options)` of
the extraction engine, declared outside the given sources.  An unsupported
loader fails before any decoding; then the secure-boot role, the bootloader
role (through the GRUB extracter of the register configuration) and the
platform role (through its platform extracter) are decoded, and a state is
returned only when each of them succeeded. -/
def FirmwareLogState (D : SecureBootDecoder) (events : List tcg.Event) (hash : crypto.Hash)
    (cfg : registerConfig) (opts : Opts) : Except ExtractErr pb.FirmwareLogState :=
  match opts.Loader with
  | .UnsupportedLoader => .error .unsupportedLoader
  | .GRUB =>
    match SecureBootState D events cfg opts with
    | .error err => .error err
    | .ok sb =>
      match cfg.GRUBExtracter hash events with
      | .error msg => .error (.grub msg)
      | .ok grub =>
        match cfg.PlatformExtracter hash events with
        | .error msg => .error (.platform msg)
        | .ok platform => .ok { SecureBoot := sb, Grub := grub, Platform := platform }

/-- Extracters on which the definitions can be run: each returns an empty
state for every log. -/
def sampleExtracters : Extracters where
  GrubStateFromTPMLog _ _ := .ok {}
  GrubStateFromRTMRLog _ _ := .ok {}
  PlatformState _ _ := .ok {}

/-- Extracters whose GRUB extracter for RTMR logs rejects every log. -/
def rejectingExtracters : Extracters where
  GrubStateFromTPMLog _ _ := .ok {}
  GrubStateFromRTMRLog _ _ := .error "no GRUB measurements found"
  PlatformState _ _ := .ok {}

/-- A secure-boot decoder on which the definitions can be run: the
variable-defining events are those of type `EFIVariableDriverConfig`, the value
of a variable is the data of its event once `DigestEquals` accepts it (with the
toy digest functions), and the flag is always decoded as disabled. -/
def sampleDecoder : SecureBootDecoder where
  definesVariable e := decide (e.Typ = tcg.EFIVariableDriverConfig)
  decodeVariable e :=
    match DigestEquals crypto.sample e e.Data with
    | .ok _ => .ok e.Data
    | .error err => .error err.Error
  decodeEnabled _ := .ok false

end extract

namespace ccel

/-- Modelled from the spec: `ReplayAndExtract` of package `ccel`, declared
outside the given sources, over the parsed events.  Extraction runs with the
RTMR register configuration and only after replay has succeeded; a replay
error aborts it. -/
def ReplayAndExtract (T : Technology) (D : extract.SecureBootDecoder) (X : extract.Extracters)
    (hash : crypto.Hash) (log : List tcg.Event) (bank : RegisterBank) (opts : extract.Opts) :
    Except (ReplayErr ⊕ extract.ExtractErr) pb.FirmwareLogState :=
  match replay T log bank with
  | .error err => .error (.inl err)
  | .ok _ =>
    match extract.FirmwareLogState D log hash (extract.RTMRRegisterConfig X) opts with
    | .error err => .error (.inr err)
    | .ok state => .ok state

end ccel

/-! ## Documented register mapping and run-time checks -/

namespace extract

/-- One register comment of `RTMRRegisterConfig`, of the form
`CCMRc=RTMR[r]=PCR[p]`. -/
structure RegisterComment where
  /-- The CC MR index `c`. -/
  ccmr : Nat
  /-- The RTMR number `r`. -/
  rtmr : Nat
  /-- The PCR index `p`. -/
  pcr : Nat
deriving DecidableEq, Repr

/-- The six register comments of `RTMRRegisterConfig`, in source order; they
stand above the fields `FirmwareDriverIdx`, `SecureBootIdx`, `EFIAppIdx`,
`ExitBootServicesIdx`, `GRUBCmdIdx` and `GRUBFileIdx`. -/
def RTMRRegisterComments : List RegisterComment :=
  [ { ccmr := 2, rtmr := 1, pcr := 2 },
    { ccmr := 1, rtmr := 0, pcr := 7 },
    { ccmr := 2, rtmr := 1, pcr := 4 },
    { ccmr := 2, rtmr := 1, pcr := 5 },
    { ccmr := 3, rtmr := 2, pcr := 8 },
    { ccmr := 3, rtmr := 2, pcr := 9 } ]

/-- The PCR-to-CC-MR mapping that the register comments document: the CC MR
index of the comment that names the PCR index. -/
def pcrToCCMR (pcr : Nat) : Option Nat :=
  (RTMRRegisterComments.find? fun c => decide (c.pcr = pcr)).map fun c => c.ccmr

/-- The six role indices of a register configuration, in the order of the
fields of `registerConfig`. -/
def registerConfig.roleIndices (cfg : registerConfig) : List Nat :=
  [cfg.FirmwareDriverIdx, cfg.SecureBootIdx, cfg.EFIAppIdx, cfg.ExitBootServicesIdx,
    cfg.GRUBCmdIdx, cfg.GRUBFileIdx]

/-- Go index expression `data[i]` with its run-time check: `none` is the
index-out-of-range panic. -/
def indexChecked (data : Bytes) (i : Int) : Option Byte :=
  if 0 ≤ i then data[i.toNat]? else none

/-- Go slice expression `data[:hi]` with its run-time check: `none` is the
slice-bounds panic.  The bound is checked against the length, which is at most
the capacity that Go checks against. -/
def sliceToChecked (data : Bytes) (hi : Int) : Option Bytes :=
  if 0 ≤ hi ∧ hi ≤ (data.length : Int) then some (data.take hi.toNat) else none

/-- `verifyNullTerminatedDataDigest` of `util.go` with the run-time checks of
its index and slice expressions made explicit: `none` is a panic.  The index
`len(data)-1` is computed on integers, as Go does. -/
def verifyNullTerminatedDataDigestChecked (hasher : hash.Hash) (data digest : Bytes) :
    Option (Except Err Unit × hash.Hash) :=
  if data.length = 0 then
    some (.error .notNullTerminated, hasher)
  else
    match indexChecked data ((data.length : Int) - 1) with
    | none => none
    | some last =>
      if last ≠ 0 then
        some (.error .notNullTerminated, hasher)
      else
        match verifyDataDigest hasher data digest with
        | (.error _, h1) =>
          match sliceToChecked data ((data.length : Int) - 1) with
          | none => none
          | some stripped =>
            match verifyDataDigest h1 stripped digest with
            | (.error err, h2) => some (.error err, h2)
            | (.ok _, h2) => some (.ok (), h2)
        | (.ok _, h1) => some (.ok (), h1)

end extract


/-! ## Theorems -/

namespace extract

open tcg

/-- Unfolding of `verifyDataDigest`: the verdict compares the digest with the
digest function of the hasher applied to the data alone, and the hasher is
left reset. -/
theorem verifyDataDigest_eq (hasher : hash.Hash) (data digest : Bytes) :
    verifyDataDigest hasher data digest =
      (if digest = hasher.digest data then .ok () else .error (.invalidDigest digest),
        hasher.Reset) := by
  unfold verifyDataDigest
  by_cases h : digest = hasher.digest data
  · simp [bytes.Equal, hash.Hash.Sum, hash.Hash.Write, hash.Hash.Reset, h]
  · simp [bytes.Equal, hash.Hash.Sum, hash.Hash.Write, hash.Hash.Reset, h]

/-- The guard of `verifyNullTerminatedDataDigest` passes exactly on the slices
whose last byte exists and is NUL. -/
theorem last_is_nul_iff (data : Bytes) (h : ¬ data.length = 0) :
    data[data.length - 1] = 0 ↔ data.getLast? = some 0 := by
  have hne : data ≠ [] := by
    intro h0; exact h (by simp [h0])
  rw [List.getLast?_eq_getLast _ hne, List.getLast_eq_getElem]
  simp

/-- Result of `verifyNullTerminatedDataDigest` on a slice that ends in NUL. -/
theorem verifyNullTerminated_of_nul (hasher : hash.Hash) (data digest : Bytes)
    (hlast : data.getLast? = some 0) :
    verifyNullTerminatedDataDigest hasher data digest =
      (if digest = hasher.digest data then .ok ()
        else if digest = hasher.digest (data.take (data.length - 1)) then .ok ()
        else .error (.invalidDigest digest),
        hasher.Reset) := by
  have hlen : ¬ data.length = 0 := by
    intro h0
    have : data = [] := List.length_eq_zero.mp h0
    simp [this] at hlast
  have hnul : data[data.length - 1] = 0 := (last_is_nul_iff data hlen).mpr hlast
  unfold verifyNullTerminatedDataDigest
  rw [dif_neg hlen]
  simp only [ne_eq, hnul, not_true_eq_false, if_false]
  rw [verifyDataDigest_eq]
  by_cases h1 : digest = hasher.digest data
  · simp [h1, hash.Hash.Reset]
  · rw [if_neg h1]
    simp only [verifyDataDigest_eq]
    by_cases h2 : digest = hasher.digest (data.take (data.length - 1))
    · simp [← h2, hash.Hash.Reset]
    · simp [h1, h2, hash.Hash.Reset]

/-- C1: `DigestEquals` returns no error exactly when the recorded digest of the
event has length 20, 32 or 48 bytes and equals, respectively, the SHA-1,
SHA-256 or SHA-384 digest of the slice; nothing of the event but its recorded
digest, and nothing but its length for the choice of algorithm, is consulted. -/
theorem DigestEquals_ok_iff (A : crypto.Algorithms) (e : Event) (b : Bytes) :
    DigestEquals A e b = .ok () ↔
      (e.Digest.length = 20 ∧ e.Digest = A.sha1 b) ∨
      (e.Digest.length = 32 ∧ e.Digest = A.sha256 b) ∨
      (e.Digest.length = 48 ∧ e.Digest = A.sha384 b) := by
  unfold DigestEquals
  simp only [Event.ReplayedDigest, crypto.SHA384_Size, crypto.SHA256_Size, crypto.SHA1_Size,
    crypto.SHA384_New, hash.Hash.Write, hash.Hash.Sum, bytes.Equal, List.nil_append,
    decide_eq_true_eq]
  by_cases h0 : e.Digest.length = 0
  · simp [h0]
  by_cases h48 : e.Digest.length = 48
  · simp [h48, eq_comm]
    split <;> simp_all
  by_cases h32 : e.Digest.length = 32
  · simp [h32, eq_comm]
    split <;> simp_all
  by_cases h20 : e.Digest.length = 20
  · simp [h20, eq_comm]
    split <;> simp_all
  simp [h0, h48, h32, h20]

/-- C2: on a non-empty slice whose last byte is NUL, for every hasher and every
digest, `verifyNullTerminatedDataDigest` succeeds if the digest is the hash of
the full slice or the hash of the slice without its last byte, and fails (with
the invalid-digest error of `verifyDataDigest`) otherwise; the call on the
stripped slice is made only after the call on the full slice has failed, and
its verdict is then the verdict of the whole. -/
theorem verifyNullTerminated_nul_spec (hasher : hash.Hash) (data digest : Bytes)
    (hne : data ≠ []) (hlast : data.getLast hne = 0) :
    ((verifyNullTerminatedDataDigest hasher data digest).1 = .ok () ↔
        digest = hasher.digest data ∨ digest = hasher.digest data.dropLast) ∧
    (¬ (digest = hasher.digest data ∨ digest = hasher.digest data.dropLast) →
        (verifyNullTerminatedDataDigest hasher data digest).1 =
          .error (.invalidDigest digest)) ∧
    (verifyNullTerminatedDataDigest hasher data digest).1 =
      (match (verifyDataDigest hasher data digest).1 with
        | .ok _ => .ok ()
        | .error _ =>
          (verifyDataDigest (verifyDataDigest hasher data digest).2
            (data.take (data.length - 1)) digest).1) := by
  have hl : data.getLast? = some 0 := by
    rw [List.getLast?_eq_getLast _ hne, hlast]
  have hd : data.take (data.length - 1) = data.dropLast := (List.dropLast_eq_take data).symm
  rw [verifyNullTerminated_of_nul hasher data digest hl, hd]
  simp only [verifyDataDigest_eq, hash.Hash.Reset]
  by_cases h1 : digest = hasher.digest data
  · simp [h1]
  · by_cases h2 : digest = hasher.digest data.dropLast
    · simp [h1, ← h2]
    · simp [h1, h2]

/-- Instance of C2: the slice `[7, 0]` with the toy SHA-256 hasher and the
digest of the stripped slice `[7]`. -/
theorem verifyNullTerminated_nul_spec_witness :
    ((verifyNullTerminatedDataDigest (crypto.SHA256_New crypto.sample) [7, 0]
        (crypto.sample.sha256 [7])).1 = .ok () ↔
        crypto.sample.sha256 [7] = (crypto.SHA256_New crypto.sample).digest [7, 0] ∨
        crypto.sample.sha256 [7] =
          (crypto.SHA256_New crypto.sample).digest ([7, 0] : Bytes).dropLast) ∧
    (verifyNullTerminatedDataDigest (crypto.SHA256_New crypto.sample) [7, 0]
        (crypto.sample.sha256 [7])).1 = .ok () :=
  have h := verifyNullTerminated_nul_spec (crypto.SHA256_New crypto.sample) [7, 0]
    (crypto.sample.sha256 [7]) (by decide) (by decide)
  ⟨h.1, h.1.mpr (Or.inr rfl)⟩

/-- C3: on a slice that is empty or whose last byte is not NUL,
`verifyNullTerminatedDataDigest` returns the error "given data is not
null-terminated", whatever the hasher and the digest (also when the digest is
the hash of the data). -/
theorem verifyNullTerminated_precondition (hasher : hash.Hash) (data digest : Bytes)
    (h : data = [] ∨ ∃ hne : data ≠ [], data.getLast hne ≠ 0) :
    (verifyNullTerminatedDataDigest hasher data digest).1 = .error .notNullTerminated ∧
    Err.Error .notNullTerminated = "given data is not null-terminated" := by
  refine ⟨?_, rfl⟩
  unfold verifyNullTerminatedDataDigest
  rcases h with h | ⟨hne, hl⟩
  · simp [h]
  · have hlen : ¬ data.length = 0 := by
      intro h0; exact hne (List.length_eq_zero.mp h0)
    have hnz : data[data.length - 1] ≠ 0 := by
      intro hz
      have := (last_is_nul_iff data hlen).mp hz
      rw [List.getLast?_eq_getLast _ hne] at this
      exact hl (Option.some.inj this)
    rw [dif_neg hlen, if_pos hnz]

/-- Instance of C3: the slice `[0, 7]` does not end in NUL, and the digest
offered is the hash of that very slice. -/
theorem verifyNullTerminated_precondition_witness :
    (verifyNullTerminatedDataDigest (crypto.SHA1_New crypto.sample) [0, 7]
        (crypto.sample.sha1 [0, 7])).1 = .error .notNullTerminated ∧
    Err.Error .notNullTerminated = "given data is not null-terminated" :=
  verifyNullTerminated_precondition (crypto.SHA1_New crypto.sample) [0, 7]
    (crypto.sample.sha1 [0, 7]) (Or.inr ⟨by decide, by decide⟩)

/-- C4, as stated, fails at length 0: for the empty recorded digest the error
is "no digests present", not "cannot compare hash of length 0", although 0 is
none of 20, 32 and 48. -/
theorem DigestEquals_unsupported_counterexample :
    ¬ (∀ (A : crypto.Algorithms) (e : Event) (b : Bytes),
        e.Digest.length ≠ 20 → e.Digest.length ≠ 32 → e.Digest.length ≠ 48 →
        DigestEquals A e b = .error (.cannotCompare e.Digest.length)) := by
  intro h
  have h0 := h crypto.sample (eventWithDigest []) [] (by decide) (by decide) (by decide)
  have h1 : DigestEquals crypto.sample (eventWithDigest []) [] = .error .noDigestsPresent := rfl
  rw [h1] at h0
  cases h0

/-- C4, amended: for every recorded digest length other than 0, 20, 32 and 48,
`DigestEquals` fails, for every candidate slice, with the error "cannot compare
hash of length N", N being that length. -/
theorem DigestEquals_unsupported (A : crypto.Algorithms) (e : Event) (b : Bytes)
    (h0 : e.Digest.length ≠ 0) (h20 : e.Digest.length ≠ 20)
    (h32 : e.Digest.length ≠ 32) (h48 : e.Digest.length ≠ 48) :
    DigestEquals A e b = .error (.cannotCompare e.Digest.length) ∧
    Err.Error (.cannotCompare e.Digest.length) =
      "cannot compare hash of length " ++ toString e.Digest.length := by
  refine ⟨?_, rfl⟩
  unfold DigestEquals
  simp [Event.ReplayedDigest, crypto.SHA384_Size, crypto.SHA256_Size, crypto.SHA1_Size,
    h0, h20, h32, h48]

/-- Instance of C4 amended: a recorded digest of three bytes. -/
theorem DigestEquals_unsupported_witness :
    DigestEquals crypto.sample (eventWithDigest [1, 2, 3]) [9] = .error (.cannotCompare 3) ∧
    Err.Error (.cannotCompare 3) = "cannot compare hash of length " ++ toString 3 :=
  DigestEquals_unsupported crypto.sample (eventWithDigest [1, 2, 3]) [9]
    (by decide) (by decide) (by decide) (by decide)

/-- C5: when the recorded digest of the event is empty, `DigestEquals` returns
the error "no digests present" for every candidate slice; in particular it
never reports a match. -/
theorem DigestEquals_empty (A : crypto.Algorithms) (e : Event) (b : Bytes)
    (h : e.Digest = []) :
    DigestEquals A e b = .error .noDigestsPresent ∧
    DigestEquals A e b ≠ .ok () ∧
    Err.Error .noDigestsPresent = "no digests present" := by
  have h1 : DigestEquals A e b = .error .noDigestsPresent := by
    unfold DigestEquals
    simp [Event.ReplayedDigest, h]
  refine ⟨h1, ?_, rfl⟩
  rw [h1]
  intro hc
  cases hc

/-- Instance of C5: an event without digest, against a non-empty candidate. -/
theorem DigestEquals_empty_witness :
    DigestEquals crypto.sample (eventWithDigest []) [1, 2] = .error .noDigestsPresent ∧
    DigestEquals crypto.sample (eventWithDigest []) [1, 2] ≠ .ok () ∧
    Err.Error .noDigestsPresent = "no digests present" :=
  DigestEquals_empty crypto.sample (eventWithDigest []) [1, 2] rfl

/-- C6: when the recorded digest has length 20, 32 or 48 but is not the SHA-1,
SHA-256 or SHA-384 digest (respectively) of the candidate slice,
`DigestEquals` returns the error "digest (len N) does not match" with N the
digest length, which is neither the unsupported-length error nor the
no-digest error. -/
theorem DigestEquals_mismatch (A : crypto.Algorithms) (e : Event) (b : Bytes)
    (h : (e.Digest.length = 20 ∧ e.Digest ≠ A.sha1 b) ∨
         (e.Digest.length = 32 ∧ e.Digest ≠ A.sha256 b) ∨
         (e.Digest.length = 48 ∧ e.Digest ≠ A.sha384 b)) :
    DigestEquals A e b = .error (.doesNotMatch e.Digest.length) ∧
    DigestEquals A e b ≠ .error (.cannotCompare e.Digest.length) ∧
    DigestEquals A e b ≠ .error .noDigestsPresent ∧
    Err.Error (.doesNotMatch e.Digest.length) =
      "digest (len " ++ toString e.Digest.length ++ ") does not match" := by
  have h1 : DigestEquals A e b = .error (.doesNotMatch e.Digest.length) := by
    unfold DigestEquals
    simp only [Event.ReplayedDigest, crypto.SHA384_Size, crypto.SHA256_Size,
      crypto.SHA1_Size, crypto.SHA384_New, hash.Hash.Write, hash.Hash.Sum, bytes.Equal,
      List.nil_append, decide_eq_true_eq]
    rcases h with ⟨hl, hd⟩ | ⟨hl, hd⟩ | ⟨hl, hd⟩
    · simp [hl, Ne.symm hd]
    · simp [hl, Ne.symm hd]
    · simp [hl, Ne.symm hd]
  refine ⟨h1, ?_, ?_, rfl⟩
  · rw [h1]; intro hc; cases hc
  · rw [h1]; intro hc; cases hc

/-- Instance of C6: a recorded digest of 32 zero bytes, which is not the toy
SHA-256 digest of the candidate `[5]`. -/
theorem DigestEquals_mismatch_witness :
    DigestEquals crypto.sample (eventWithDigest (List.replicate 32 0)) [5] =
      .error (.doesNotMatch 32) :=
  (DigestEquals_mismatch crypto.sample (eventWithDigest (List.replicate 32 0)) [5]
    (Or.inr (Or.inl ⟨by decide, by decide⟩))).1

/-- C10: in `RTMRRegisterConfig` an event type looks up as true in
`AdditionalSecureBootIdxEvents` exactly when it is one of CPUMicrocode,
PlatformConfigFlags, TableOfDevices, NonhostConfig, EFIVariableDriverConfig,
EFIVariableBoot, EFIVariableBoot2, EFIAction, EFIHandoffTables2 and
EFIPlatformFirmwareBlob2, which are ten distinct types; every other event type
looks up as false. -/
theorem RTMR_additional_events (X : Extracters) :
    (∀ t : EventType,
      (RTMRRegisterConfig X).AdditionalSecureBootIdxEvents.lookup t = true ↔
        t ∈ [CPUMicrocode, PlatformConfigFlags, TableOfDevices, NonhostConfig,
          EFIVariableDriverConfig, EFIVariableBoot, EFIVariableBoot2, EFIAction,
          EFIHandoffTables2, EFIPlatformFirmwareBlob2]) ∧
    (∀ t : EventType,
      t ∉ [CPUMicrocode, PlatformConfigFlags, TableOfDevices, NonhostConfig,
          EFIVariableDriverConfig, EFIVariableBoot, EFIVariableBoot2, EFIAction,
          EFIHandoffTables2, EFIPlatformFirmwareBlob2] →
      (RTMRRegisterConfig X).AdditionalSecureBootIdxEvents.lookup t = false) ∧
    [CPUMicrocode, PlatformConfigFlags, TableOfDevices, NonhostConfig,
      EFIVariableDriverConfig, EFIVariableBoot, EFIVariableBoot2, EFIAction,
      EFIHandoffTables2, EFIPlatformFirmwareBlob2].Nodup := by
  have key : ∀ t : EventType,
      (RTMRRegisterConfig X).AdditionalSecureBootIdxEvents.lookup t = true ↔
        t ∈ [CPUMicrocode, PlatformConfigFlags, TableOfDevices, NonhostConfig,
          EFIVariableDriverConfig, EFIVariableBoot, EFIVariableBoot2, EFIAction,
          EFIHandoffTables2, EFIPlatformFirmwareBlob2] := by
    intro t
    simp only [RTMRRegisterConfig, EventTypeSet.lookup, List.lookup, List.mem_cons,
      List.mem_singleton, List.not_mem_nil, or_false]
    repeat' split
    all_goals simp_all
  refine ⟨key, ?_, by decide⟩
  intro t ht
  cases hb : (RTMRRegisterConfig X).AdditionalSecureBootIdxEvents.lookup t
  · rfl
  · exact absurd ((key t).mp hb) ht

end extract

namespace ccel

open tcg

/-- Separators of a list that starts with a Separator event. -/
theorem separators_cons_pos (e : Event) (es : List Event) (h : e.Typ = Separator) :
    separators (e :: es) = e :: separators es := by
  simp [separators, h]

/-- Separators of a list that starts with an event of another type. -/
theorem separators_cons_neg (e : Event) (es : List Event) (h : ¬ e.Typ = Separator) :
    separators (e :: es) = separators es := by
  simp [separators, h]

/-- Once a Separator was met, chaining fails at the next Separator event. -/
theorem chain_seen_error (T : Technology) (evs : List Event) :
    ∀ acc : Bytes, separators evs ≠ [] →
      ∃ pre e post, evs = pre ++ e :: post ∧ e.Typ = Separator ∧ separators pre = [] ∧
        chain T acc true evs = .error (.duplicateSeparator e.Num) := by
  induction evs with
  | nil => intro acc h; exact absurd rfl h
  | cons e es ih =>
    intro acc h
    by_cases hs : e.Typ = Separator
    · exact ⟨[], e, es, rfl, hs, rfl, by simp [chain, hs]⟩
    · rw [separators_cons_neg e es hs] at h
      obtain ⟨pre, x, post, hsplit, hx, hpre, hchain⟩ := ih (extend T acc e) h
      refine ⟨e :: pre, x, post, by simp [hsplit], hx, ?_, ?_⟩
      · rw [separators_cons_neg e pre hs, hpre]
      · simp [chain, hs, hchain]

/-- Chaining from the start fails at the second Separator event. -/
theorem chain_unseen_error (T : Technology) (evs : List Event) :
    ∀ acc : Bytes, 2 ≤ (separators evs).length →
      ∃ pre e post, evs = pre ++ e :: post ∧ e.Typ = Separator ∧
        (separators pre).length = 1 ∧
        chain T acc false evs = .error (.duplicateSeparator e.Num) := by
  induction evs with
  | nil => intro acc h; simp [separators] at h
  | cons e es ih =>
    intro acc h
    by_cases hs : e.Typ = Separator
    · rw [separators_cons_pos e es hs] at h
      have hne : separators es ≠ [] := by
        intro h0
        rw [h0] at h
        simp at h
      obtain ⟨pre, x, post, hsplit, hx, hpre, hchain⟩ :=
        chain_seen_error T es (extend T acc e) hne
      refine ⟨e :: pre, x, post, by simp [hsplit], hx, ?_, ?_⟩
      · rw [separators_cons_pos e pre hs, hpre]
        rfl
      · simp [chain, hs, hchain]
    · rw [separators_cons_neg e es hs] at h
      obtain ⟨pre, x, post, hsplit, hx, hpre, hchain⟩ := ih (extend T acc e) h
      refine ⟨e :: pre, x, post, by simp [hsplit], hx, ?_, ?_⟩
      · rw [separators_cons_neg e pre hs, hpre]
      · simp [chain, hs, hchain]

/-- Without a second Separator event, chaining returns the folded accumulator. -/
theorem chain_ok (T : Technology) (evs : List Event) :
    ∀ (acc : Bytes) (seen : Bool),
      (separators evs).length + (if seen then 1 else 0) ≤ 1 →
      chain T acc seen evs = .ok (evs.foldl (extend T) acc) := by
  induction evs with
  | nil => intro acc seen _; rfl
  | cons e es ih =>
    intro acc seen h
    by_cases hs : e.Typ = Separator
    · rw [separators_cons_pos e es hs] at h
      have hseen : seen = false := by
        cases seen
        · rfl
        · simp at h
      subst hseen
      have h2 : (separators es).length + (if true = true then 1 else 0) ≤ 1 := by
        simpa using h
      have := ih (extend T acc e) true h2
      simp [chain, hs, this]
    · rw [separators_cons_neg e es hs] at h
      have := ih (extend T acc e) seen h
      simp [chain, hs, this]

/-- A split of the events of a register lifts to a split of the log. -/
theorem eventsOf_split (log : List Event) (r : Nat) (a b : List Event) (e : Event)
    (h : eventsOf log r = a ++ e :: b) :
    ∃ pre post, log = pre ++ e :: post ∧ eventsOf pre r = a ∧ e.MRIndex = r := by
  unfold eventsOf at h
  obtain ⟨l₁, l₂, hlog, h₁, h₂⟩ := List.filter_eq_append_iff.mp h
  obtain ⟨m₁, m₂, hl₂, hm₁, he, _⟩ := List.filter_eq_cons_iff.mp h₂
  refine ⟨l₁ ++ m₁, m₂, by simp [hlog, hl₂], ?_, by simpa using he⟩
  unfold eventsOf
  rw [List.filter_append, h₁]
  have : List.filter (fun e => decide (e.MRIndex = r)) m₁ = [] := by
    rw [List.filter_eq_nil_iff]
    exact hm₁
  rw [this, List.append_nil]

/-- The register indices of a log are the indices its events carry. -/
theorem mem_registerIndices (log : List Event) (r : Nat) :
    r ∈ registerIndices log ↔ ∃ e ∈ log, e.MRIndex = r := by
  induction log with
  | nil => simp [registerIndices]
  | cons e es ih =>
    simp only [registerIndices, List.mem_cons, List.mem_filter, ih, decide_eq_true_eq]
    constructor
    · rintro (h | ⟨⟨x, hx, hxr⟩, _⟩)
      · exact ⟨e, Or.inl rfl, h.symm⟩
      · exact ⟨x, Or.inr hx, hxr⟩
    · rintro ⟨x, hx | hx, hxr⟩
      · left; rw [← hxr, hx]
      · by_cases hr : r = e.MRIndex
        · exact Or.inl hr
        · exact Or.inr ⟨⟨x, hx, hxr⟩, hr⟩

/-- The register indices of a log are listed once each. -/
theorem registerIndices_nodup (log : List Event) : (registerIndices log).Nodup := by
  induction log with
  | nil => simp [registerIndices]
  | cons e es ih =>
    simp only [registerIndices, List.nodup_cons, List.mem_filter, decide_eq_true_eq]
    exact ⟨fun h => h.2 rfl, ih.filter _⟩

/-- Chaining of one register fails with the sequence number of the second
Separator event of that register, located in the log. -/
theorem chain_register_error (T : Technology) (log : List Event) (r : Nat)
    (h : 2 ≤ separatorCount log r) :
    ∃ pre e post, log = pre ++ e :: post ∧ e.Typ = Separator ∧
      separatorCount pre e.MRIndex = 1 ∧
      chain T (initial T) false (eventsOf log r) = .error (.duplicateSeparator e.Num) := by
  obtain ⟨a, e, b, hsplit, he, ha, hchain⟩ :=
    chain_unseen_error T (eventsOf log r) (initial T) h
  obtain ⟨pre, post, hlog, hpre, her⟩ := eventsOf_split log r a b e hsplit
  refine ⟨pre, e, post, hlog, he, ?_, hchain⟩
  unfold separatorCount
  rw [her, hpre, ha]

/-- Chaining of a register with at most one Separator event returns its
chained digest. -/
theorem chain_register_ok (T : Technology) (log : List Event) (r : Nat)
    (h : separatorCount log r ≤ 1) :
    chain T (initial T) false (eventsOf log r) = .ok (chainedDigest T log r) := by
  have := chain_ok T (eventsOf log r) (initial T) false (by simpa [separatorCount] using h)
  rw [this]
  rfl

/-- Chaining of a list of registers fails with a duplicate-separator error as
soon as one of them has a second Separator event. -/
theorem chainAll_error (T : Technology) (log : List Event) (rs : List Nat) :
    (∃ r ∈ rs, 2 ≤ separatorCount log r) →
    ∃ pre e post, log = pre ++ e :: post ∧ e.Typ = Separator ∧
      separatorCount pre e.MRIndex = 1 ∧
      chainAll T log rs = .error (.duplicateSeparator e.Num) := by
  induction rs with
  | nil => rintro ⟨r, hr, _⟩; cases hr
  | cons r₀ rs ih =>
    rintro ⟨r, hr, hcount⟩
    by_cases h₀ : 2 ≤ separatorCount log r₀
    · obtain ⟨pre, e, post, hlog, he, hpre, hchain⟩ := chain_register_error T log r₀ h₀
      exact ⟨pre, e, post, hlog, he, hpre, by simp [chainAll, hchain]⟩
    · have hr' : r ∈ rs := by
        rcases List.mem_cons.mp hr with h | h
        · exact absurd (h ▸ hcount) h₀
        · exact h
      obtain ⟨pre, e, post, hlog, he, hpre, hall⟩ := ih ⟨r, hr', hcount⟩
      refine ⟨pre, e, post, hlog, he, hpre, ?_⟩
      rw [chainAll, chain_register_ok T log r₀ (by omega), hall]

/-- Chaining of a list of registers none of which has a second Separator event
returns the chained digest of each. -/
theorem chainAll_ok (T : Technology) (log : List Event) (rs : List Nat)
    (h : ∀ r ∈ rs, separatorCount log r ≤ 1) :
    chainAll T log rs = .ok (rs.map fun r => (r, chainedDigest T log r)) := by
  induction rs with
  | nil => rfl
  | cons r₀ rs ih =>
    rw [chainAll, chain_register_ok T log r₀ (h r₀ (List.mem_cons_self _ _)),
      ih fun r hr => h r (List.mem_cons_of_mem _ hr)]
    rfl

/-- The comparison succeeds when the bank holds every chained digest. -/
theorem compare_ok (bank : RegisterBank) (f : Nat → Bytes) (rs : List Nat)
    (h : ∀ r ∈ rs, bank.lookup r = some (f r)) :
    compare bank (rs.map fun r => (r, f r)) = .ok () := by
  induction rs with
  | nil => rfl
  | cons r₀ rs ih =>
    simp only [List.map_cons, compare, h r₀ (List.mem_cons_self _ _), if_true]
    exact ih fun r hr => h r (List.mem_cons_of_mem _ hr)

/-- Lookup in the list of per-register digests. -/
theorem lookup_digests (f : Nat → Bytes) (rs : List Nat) (r : Nat) :
    List.lookup r (rs.map fun i => (i, f i)) = if r ∈ rs then some (f r) else none := by
  induction rs with
  | nil => rfl
  | cons r₀ rs ih =>
    simp only [List.map_cons, List.lookup_cons, List.mem_cons, ih]
    by_cases h : r = r₀
    · simp [h]
    · have hb : (r == r₀) = false := by simpa using h
      simp [hb, h]

/-- C7: for every event log in which some register has a second Separator
event, and for every register bank, replay fails with the duplicate-separator
error, whose message is "duplicate separator at event N" with N the sequence
number of an event of the log that is the second Separator of its register. -/
theorem replay_duplicate_separator (T : Technology) (log : List Event)
    (bank : RegisterBank) (r : Nat) (h : 2 ≤ separatorCount log r) :
    ∃ pre e post, log = pre ++ e :: post ∧ e.Typ = Separator ∧
      separatorCount pre e.MRIndex = 1 ∧
      replay T log bank = .error (.duplicateSeparator e.Num) ∧
      (∀ D X hash opts,
        ReplayAndExtract T D X hash log bank opts = .error (.inl (.duplicateSeparator e.Num))) ∧
      ReplayErr.Error (.duplicateSeparator e.Num) =
        "duplicate separator at event " ++ toString e.Num := by
  have hmem : r ∈ registerIndices log := by
    rw [mem_registerIndices]
    have hne : eventsOf log r ≠ [] := by
      intro h0
      simp [separatorCount, separators, h0] at h
    obtain ⟨e, he⟩ := List.exists_mem_of_ne_nil _ hne
    have := List.mem_filter.mp he
    exact ⟨e, this.1, by simpa using this.2⟩
  obtain ⟨pre, e, post, hlog, he, hpre, hall⟩ :=
    chainAll_error T log (registerIndices log) ⟨r, hmem, h⟩
  have hreplay : replay T log bank = .error (.duplicateSeparator e.Num) := by
    simp [replay, hall]
  refine ⟨pre, e, post, hlog, he, hpre, hreplay, ?_, rfl⟩
  intro D X hash opts
  simp [ReplayAndExtract, hreplay]

/-- Instance of C7: register 1 carries the Separator events 4 and 9; replay
against the empty bank names event 9. -/
theorem replay_duplicate_separator_witness :
    ∃ pre e post, [separatorEvent 4 1, separatorEvent 5 2, separatorEvent 9 1] =
        pre ++ e :: post ∧ e.Typ = Separator ∧
      separatorCount pre e.MRIndex = 1 ∧
      replay sampleTechnology [separatorEvent 4 1, separatorEvent 5 2, separatorEvent 9 1] [] =
        .error (.duplicateSeparator e.Num) ∧
      (∀ D X hash opts,
        ReplayAndExtract sampleTechnology D X hash
          [separatorEvent 4 1, separatorEvent 5 2, separatorEvent 9 1] [] opts =
          .error (.inl (.duplicateSeparator e.Num))) ∧
      ReplayErr.Error (.duplicateSeparator e.Num) =
        "duplicate separator at event " ++ toString e.Num :=
  replay_duplicate_separator sampleTechnology
    [separatorEvent 4 1, separatorEvent 5 2, separatorEvent 9 1] [] 1 (by decide)

/-- A register index of the bank looks up as the digest of one of its entries. -/
theorem lookup_of_mem_keys (bank : RegisterBank) (r : Nat) (h : r ∈ bank.map Prod.fst) :
    ∃ d, bank.lookup r = some d ∧ (r, d) ∈ bank := by
  induction bank with
  | nil => cases h
  | cons entry rest ih =>
    obtain ⟨k, d⟩ := entry
    by_cases hk : r = k
    · subst hk
      exact ⟨d, by simp [List.lookup_cons], List.mem_cons_self _ _⟩
    · have hb : (r == k) = false := by simpa using hk
      have hr : r ∈ rest.map Prod.fst := by
        rcases List.mem_cons.mp h with h0 | h0
        · exact absurd h0 hk
        · exact h0
      obtain ⟨x, hx, hmem⟩ := ih hr
      exact ⟨x, by simp [List.lookup_cons, hb, hx], List.mem_cons_of_mem _ hmem⟩

/-- A register index outside the bank looks up as nothing. -/
theorem lookup_of_not_mem_keys (bank : RegisterBank) (r : Nat)
    (h : r ∉ bank.map Prod.fst) : bank.lookup r = none := by
  rw [List.lookup_eq_none_iff]
  intro entry he
  have : entry.1 ≠ r := fun h0 => h (h0 ▸ List.mem_map_of_mem Prod.fst he)
  simpa using fun h0 => this h0.symm

/-- C9: for every log and register bank over the same register indices (the
invariant of the bank: one entry per register index that the log uses), where
every bank entry is the chained digest of its register (accumulator starting at
all-zero, updated as hash(accumulator ‖ event.digest) in log order) and no
register has more than one Separator event, replay succeeds; it returns, for
the registers of the log in order, their chained digests, and the returned
digest of every register index is the bank value of that index. -/
theorem replay_success (T : Technology) (log : List Event) (bank : RegisterBank)
    (hregs : sameRegisters log bank)
    (hbank : ∀ entry ∈ bank, entry.2 = chainedDigest T log entry.1)
    (hsep : ∀ r, separatorCount log r ≤ 1) :
    replay T log bank =
      .ok ((registerIndices log).map fun r => (r, chainedDigest T log r)) ∧
    ∀ r, List.lookup r ((registerIndices log).map fun r => (r, chainedDigest T log r)) =
      bank.lookup r := by
  have hlook : ∀ r ∈ registerIndices log, bank.lookup r = some (chainedDigest T log r) := by
    intro r hr
    obtain ⟨d, hd, hmem⟩ := lookup_of_mem_keys bank r (hregs.2 r hr)
    have hval : d = chainedDigest T log r := hbank (r, d) hmem
    rw [hd, hval]
  constructor
  · have hfind : (bank.find? fun entry => !(registerIndices log).contains entry.1) = none := by
      rw [List.find?_eq_none]
      intro entry he
      simpa using hregs.1 entry.1 (List.mem_map_of_mem Prod.fst he)
    rw [replay, chainAll_ok T log _ fun r _ => hsep r]
    simp only [hfind, compare_ok bank (chainedDigest T log) _ hlook]
  · intro r
    rw [lookup_digests]
    by_cases hr : r ∈ registerIndices log
    · rw [if_pos hr, hlook r hr]
    · rw [if_neg hr, lookup_of_not_mem_keys bank r fun h0 => hr (hregs.1 r h0)]

set_option maxRecDepth 8000 in
/-- Instance of C9: a log of one Separator event on register 1, and the bank
that holds the chained digest of that register. -/
theorem replay_success_witness :
    replay sampleTechnology [separatorEvent 4 1] [(1, List.replicate 48 51)] =
      .ok ((registerIndices [separatorEvent 4 1]).map fun r =>
        (r, chainedDigest sampleTechnology [separatorEvent 4 1] r)) ∧
    ∀ r, List.lookup r ((registerIndices [separatorEvent 4 1]).map fun r =>
        (r, chainedDigest sampleTechnology [separatorEvent 4 1] r)) =
      List.lookup r [(1, List.replicate 48 51)] :=
  replay_success sampleTechnology [separatorEvent 4 1] [(1, List.replicate 48 51)]
    (by simp [sameRegisters, registerIndices, separatorEvent])
    (by
      intro entry he
      have h1 : entry = (1, List.replicate 48 51) := by simpa using he
      subst h1
      rfl)
    (fun _ => le_trans (List.length_filter_le _ _) (List.length_filter_le _ _))

/-- C8, as stated, fails when the bootloader decoder rejects the log: the empty
log replays against the empty bank and has no secure-boot variable event, yet
with `AllowEmptySBVar` set the extraction fails on the GRUB extracter. -/
theorem extract_empty_secure_boot_counterexample :
    ¬ (∀ (T : Technology) (D : extract.SecureBootDecoder) (X : extract.Extracters)
        (hash : crypto.Hash) (log : List Event) (bank : RegisterBank),
        (∃ digests, replay T log bank = .ok digests) →
        (∀ e ∈ log, D.definesVariable e = false) →
        (∃ err, ReplayAndExtract T D X hash log bank
          { Loader := .GRUB, AllowEmptySBVar := false } = .error err) ∧
        (∃ state, ReplayAndExtract T D X hash log bank
          { Loader := .GRUB, AllowEmptySBVar := true } = .ok state ∧
          state.SecureBoot.Variables = [])) := by
  intro h
  obtain ⟨_, state, hstate, _⟩ :=
    h sampleTechnology extract.sampleDecoder extract.rejectingExtracters 6 [] []
      ⟨[], rfl⟩ (by intro e he; cases he)
  have hr : ReplayAndExtract sampleTechnology extract.sampleDecoder
      extract.rejectingExtracters 6 [] [] { Loader := .GRUB, AllowEmptySBVar := true } =
      .error (.inr (.grub "no GRUB measurements found")) := rfl
  rw [hr] at hstate
  cases hstate

/-- The secure-boot role on a log without UEFI-variable-defining event on the
secure-boot register: the empty-set error when `AllowEmptySBVar` is unset, and
otherwise the decoded flag with the empty variable list. -/
theorem secureBootState_no_variables (D : extract.SecureBootDecoder) (log : List Event)
    (cfg : extract.registerConfig) (allow : Bool)
    (hvars : ∀ e ∈ log, e.MRIndex = cfg.SecureBootIdx → D.definesVariable e = false) :
    extract.SecureBootState D log cfg { Loader := .GRUB, AllowEmptySBVar := allow } =
      if allow then
        match D.decodeEnabled (log.filter fun e => decide (e.MRIndex = cfg.SecureBootIdx)) with
        | .error msg => .error (.secureBoot msg)
        | .ok enabled => .ok { Enabled := enabled, Variables := [] }
      else .error .emptySecureBootVariables := by
  have hnone : List.filter D.definesVariable
      (log.filter fun e => decide (e.MRIndex = cfg.SecureBootIdx)) = [] := by
    rw [List.filter_eq_nil_iff]
    intro e he
    have := List.mem_filter.mp he
    simp [hvars e this.1 (by simpa using this.2)]
  have hmap : List.mapM D.decodeVariable ([] : List Event) = Except.ok [] := rfl
  unfold extract.SecureBootState
  simp only [hnone, hmap]
  cases allow <;> simp

/-- C8, amended: for every log that replays against the bank and has no
UEFI-variable-defining event on the secure-boot register, extraction with
loader GRUB fails when `AllowEmptySBVar` is unset (on the empty variable set);
when it is set, the empty variable set is not an error, and every extraction
that succeeds carries the empty secure-boot variable list. -/
theorem extract_empty_secure_boot (T : Technology) (D : extract.SecureBootDecoder)
    (X : extract.Extracters) (hash : crypto.Hash) (log : List Event) (bank : RegisterBank)
    (hreplay : ∃ digests, replay T log bank = .ok digests)
    (hvars : ∀ e ∈ log, e.MRIndex = (extract.RTMRRegisterConfig X).SecureBootIdx →
      D.definesVariable e = false) :
    ReplayAndExtract T D X hash log bank { Loader := .GRUB, AllowEmptySBVar := false } =
      .error (.inr .emptySecureBootVariables) ∧
    ReplayAndExtract T D X hash log bank { Loader := .GRUB, AllowEmptySBVar := true } ≠
      .error (.inr .emptySecureBootVariables) ∧
    (∀ state, ReplayAndExtract T D X hash log bank
        { Loader := .GRUB, AllowEmptySBVar := true } = .ok state →
      state.SecureBoot.Variables = []) := by
  obtain ⟨digests, hd⟩ := hreplay
  have hsb := fun allow =>
    secureBootState_no_variables D log (extract.RTMRRegisterConfig X) allow hvars
  have hp : (extract.RTMRRegisterConfig X).PlatformExtracter hash log =
      .ok { Technology := .INTEL_TDX } := rfl
  refine ⟨?_, ?_, ?_⟩
  · simp [ReplayAndExtract, hd, extract.FirmwareLogState, hsb]
  · simp only [ReplayAndExtract, hd, extract.FirmwareLogState, hsb, hp, if_true]
    cases D.decodeEnabled (log.filter fun e =>
        decide (e.MRIndex = (extract.RTMRRegisterConfig X).SecureBootIdx)) with
    | error msg => simp
    | ok enabled =>
      cases (extract.RTMRRegisterConfig X).GRUBExtracter hash log with
      | error msg => simp
      | ok grub => simp
  · intro state
    simp only [ReplayAndExtract, hd, extract.FirmwareLogState, hsb, hp, if_true]
    cases D.decodeEnabled (log.filter fun e =>
        decide (e.MRIndex = (extract.RTMRRegisterConfig X).SecureBootIdx)) with
    | error msg => simp
    | ok enabled =>
      cases (extract.RTMRRegisterConfig X).GRUBExtracter hash log with
      | error msg => simp
      | ok grub =>
        simp only [Except.ok.injEq]
        intro hst
        rw [← hst]

set_option maxRecDepth 8000 in
/-- Instance of C8 amended: a log of one Separator event on register 2, whose
recorded digest is the digest of its data, with the bank that holds the chained
digest of that register. -/
theorem extract_empty_secure_boot_witness :
    ReplayAndExtract sampleTechnology extract.sampleDecoder extract.sampleExtracters 6
        [measuredEvent 4 2 Separator [0, 0, 0, 0]] [(2, List.replicate 48 147)]
        { Loader := .GRUB, AllowEmptySBVar := false } =
      .error (.inr .emptySecureBootVariables) ∧
    ReplayAndExtract sampleTechnology extract.sampleDecoder extract.sampleExtracters 6
        [measuredEvent 4 2 Separator [0, 0, 0, 0]] [(2, List.replicate 48 147)]
        { Loader := .GRUB, AllowEmptySBVar := true } ≠
      .error (.inr .emptySecureBootVariables) :=
  have h := extract_empty_secure_boot sampleTechnology extract.sampleDecoder
    extract.sampleExtracters 6 [measuredEvent 4 2 Separator [0, 0, 0, 0]]
    [(2, List.replicate 48 147)]
    ⟨_, rfl⟩ (by simp [measuredEvent, extract.RTMRRegisterConfig])
  ⟨h.1, h.2.1⟩

end ccel

namespace extract

open tcg

/-- C11: in `RTMRRegisterConfig` the firmware-driver, EFI-app and
exit-boot-services roles all map to index 2, the bootloader-command and
bootloader-file roles both map to index 3, and the secure-boot role maps to
index 1, which no other role has; the six roles use exactly the three distinct
indices 1, 2 and 3. -/
theorem RTMR_roles_collapse (X : Extracters) :
    ((RTMRRegisterConfig X).FirmwareDriverIdx = 2 ∧ (RTMRRegisterConfig X).EFIAppIdx = 2 ∧
      (RTMRRegisterConfig X).ExitBootServicesIdx = 2) ∧
    ((RTMRRegisterConfig X).GRUBCmdIdx = 3 ∧ (RTMRRegisterConfig X).GRUBFileIdx = 3) ∧
    ((RTMRRegisterConfig X).SecureBootIdx = 1 ∧
      (RTMRRegisterConfig X).SecureBootIdx ∉
        [(RTMRRegisterConfig X).FirmwareDriverIdx, (RTMRRegisterConfig X).EFIAppIdx,
          (RTMRRegisterConfig X).ExitBootServicesIdx, (RTMRRegisterConfig X).GRUBCmdIdx,
          (RTMRRegisterConfig X).GRUBFileIdx]) ∧
    (∀ i, i ∈ (RTMRRegisterConfig X).roleIndices ↔ i ∈ [1, 2, 3]) ∧
    (RTMRRegisterConfig X).roleIndices.toFinset.card = 3 := by
  have hroles : (RTMRRegisterConfig X).roleIndices = [2, 1, 2, 2, 3, 3] := rfl
  refine ⟨⟨rfl, rfl, rfl⟩, ⟨rfl, rfl⟩, ⟨rfl, ?_⟩, ?_, ?_⟩
  · show (1 : Nat) ∉ [2, 2, 2, 3, 3]
    decide
  · intro i
    rw [hroles]
    simp only [List.mem_cons, List.mem_singleton, List.not_mem_nil, or_false]
    omega
  · rw [hroles]
    decide

/-- C12: in `TPMRegisterConfig` the firmware-driver, secure-boot, EFI-app,
exit-boot-services, bootloader-command and bootloader-file roles map to six
pairwise distinct register indices (2, 7, 4, 5, 8 and 9). -/
theorem TPM_roles_distinct (X : Extracters) :
    (TPMRegisterConfig X).roleIndices.Nodup ∧
    (TPMRegisterConfig X).roleIndices.length = 6 ∧
    (TPMRegisterConfig X).roleIndices = [2, 7, 4, 5, 8, 9] := by
  have hroles : (TPMRegisterConfig X).roleIndices = [2, 7, 4, 5, 8, 9] := rfl
  refine ⟨?_, rfl, rfl⟩
  rw [hroles]
  decide

/-- C13: in `TPMRegisterConfig` the set of additional secure-boot event types
is empty: the lookup of every event type in `AdditionalSecureBootIdxEvents`
yields false. -/
theorem TPM_additional_events_empty (X : Extracters) (t : EventType) :
    (TPMRegisterConfig X).AdditionalSecureBootIdxEvents = [] ∧
    (TPMRegisterConfig X).AdditionalSecureBootIdxEvents.lookup t = false := by
  constructor
  · rfl
  · simp [TPMRegisterConfig, EventTypeSet.lookup]

/-- C14: the platform extracter of `RTMRRegisterConfig` is constant: for every
hash algorithm and every list of events, the empty one included, it returns
without error the platform state whose technology is Intel TDX. -/
theorem RTMR_platform_extracter_constant (X : Extracters) (hash : crypto.Hash)
    (events : List Event) :
    (RTMRRegisterConfig X).PlatformExtracter hash events =
      .ok { Technology := .INTEL_TDX } ∧
    (RTMRRegisterConfig X).PlatformExtracter hash [] =
      (RTMRRegisterConfig X).PlatformExtracter hash events := by
  constructor
  · simp only [RTMRRegisterConfig]
  · simp only [RTMRRegisterConfig]

/-- C15: for each of the six roles, the comment above its field in
`RTMRRegisterConfig` names the PCR index of that role in `TPMRegisterConfig`
and the CC MR index that the field holds, so the RTMR index of the role is the
image of its TPM index under the documented mapping (PCR 7 to CCMR 1; PCR 2, 4
and 5 to CCMR 2; PCR 8 and 9 to CCMR 3); and in every comment the CC MR index
is the RTMR number plus one. -/
theorem RTMR_indices_follow_comments (X : Extracters) :
    RTMRRegisterComments.map (fun c => c.pcr) = (TPMRegisterConfig X).roleIndices ∧
    RTMRRegisterComments.map (fun c => c.ccmr) = (RTMRRegisterConfig X).roleIndices ∧
    (TPMRegisterConfig X).roleIndices.map pcrToCCMR =
      (RTMRRegisterConfig X).roleIndices.map some ∧
    (pcrToCCMR 7 = some 1 ∧ pcrToCCMR 2 = some 2 ∧ pcrToCCMR 4 = some 2 ∧
      pcrToCCMR 5 = some 2 ∧ pcrToCCMR 8 = some 3 ∧ pcrToCCMR 9 = some 3) ∧
    ∀ c ∈ RTMRRegisterComments, c.ccmr = c.rtmr + 1 := by
  have htpm : (TPMRegisterConfig X).roleIndices = [2, 7, 4, 5, 8, 9] := rfl
  have hrtmr : (RTMRRegisterConfig X).roleIndices = [2, 1, 2, 2, 3, 3] := rfl
  refine ⟨rfl, rfl, ?_, by decide, by decide⟩
  rw [htpm, hrtmr]
  decide

/-- The checked read of the last byte of a non-empty slice is in bounds. -/
theorem indexChecked_last (data : Bytes) (h : ¬ data.length = 0) :
    indexChecked data ((data.length : Int) - 1) = some data[data.length - 1] := by
  unfold indexChecked
  have h0 : (0 : Int) ≤ (data.length : Int) - 1 := by omega
  have h1 : ((data.length : Int) - 1).toNat = data.length - 1 := by omega
  rw [if_pos h0]
  simp only [h1]
  exact List.getElem?_eq_getElem _

/-- The checked slice to the last index of a non-empty slice is in bounds. -/
theorem sliceToChecked_last (data : Bytes) (h : ¬ data.length = 0) :
    sliceToChecked data ((data.length : Int) - 1) = some (data.take (data.length - 1)) := by
  unfold sliceToChecked
  have h0 : (0 : Int) ≤ (data.length : Int) - 1 ∧ (data.length : Int) - 1 ≤ data.length := by
    omega
  have h1 : ((data.length : Int) - 1).toNat = data.length - 1 := by omega
  rw [if_pos h0, h1]

/-- The checked form of `verifyNullTerminatedDataDigest` never panics and
returns what the unchecked form returns. -/
theorem verifyNullTerminatedChecked_eq (hasher : hash.Hash) (data digest : Bytes) :
    verifyNullTerminatedDataDigestChecked hasher data digest =
      some (verifyNullTerminatedDataDigest hasher data digest) := by
  unfold verifyNullTerminatedDataDigestChecked verifyNullTerminatedDataDigest
  by_cases h : data.length = 0
  · simp [h]
  · rw [if_neg h, dif_neg h, indexChecked_last data h]
    simp only [sliceToChecked_last data h, verifyDataDigest_eq]
    by_cases hz : data[data.length - 1] = 0
    · simp only [hz, ne_eq, not_true_eq_false, if_false]
      by_cases h1 : digest = hasher.digest data
      · simp [h1]
      · simp only [h1, if_false]
        by_cases h2 : digest = (hasher.Reset).digest (data.take (data.length - 1))
        · simp [← h2]
        · simp [h2]
    · simp [hz]

/-- Result of `verifyNullTerminatedDataDigest` on a slice that does not end in
NUL: the precondition error, and the hasher as it was. -/
theorem verifyNullTerminated_of_not_nul (hasher : hash.Hash) (data digest : Bytes)
    (hlast : data.getLast? ≠ some 0) :
    verifyNullTerminatedDataDigest hasher data digest =
      (.error .notNullTerminated, hasher) := by
  unfold verifyNullTerminatedDataDigest
  by_cases h : data.length = 0
  · rw [dif_pos h]
  · have hnz : data[data.length - 1] ≠ 0 := fun hz =>
      hlast ((last_is_nul_iff data h).mp hz)
    rw [dif_neg h, if_pos hnz]

/-- C16: `verifyNullTerminatedDataDigest` is total and its index and slice
expressions never leave the bounds: with the run-time checks made explicit it
never panics and returns the same result.  On empty data it returns the
precondition error, the read of `data[len(data)-1]` (which would be out of
range) being skipped; on the single NUL byte the slice `data[:0]` is the empty
buffer, and the call succeeds exactly when the digest is the hash of that byte
or of the empty input, in particular when it is the hash of the empty input. -/
theorem verifyNullTerminated_total (hasher : hash.Hash) (digest : Bytes) :
    (∀ data, verifyNullTerminatedDataDigestChecked hasher data digest =
      some (verifyNullTerminatedDataDigest hasher data digest)) ∧
    (verifyNullTerminatedDataDigest hasher [] digest = (.error .notNullTerminated, hasher) ∧
      indexChecked [] (((([] : Bytes).length : Nat) : Int) - 1) = none) ∧
    (sliceToChecked [0] ((((([0] : Bytes).length : Nat)) : Int) - 1) = some [] ∧
      ((verifyNullTerminatedDataDigest hasher [0] digest).1 = .ok () ↔
        digest = hasher.digest [0] ∨ digest = hasher.digest [])) ∧
    (verifyNullTerminatedDataDigest hasher [0] (hasher.digest [])).1 = .ok () := by
  have hnul : ∀ d : Bytes, verifyNullTerminatedDataDigest hasher [0] d =
      (if d = hasher.digest [0] then .ok ()
        else if d = hasher.digest [] then .ok () else .error (.invalidDigest d),
        hasher.Reset) :=
    fun d => verifyNullTerminated_of_nul hasher [0] d rfl
  refine ⟨fun data => verifyNullTerminatedChecked_eq hasher data digest, ⟨rfl, rfl⟩,
    ⟨rfl, ?_⟩, ?_⟩
  · rw [hnul]
    by_cases h1 : digest = hasher.digest [0]
    · simp [h1]
    · by_cases h2 : digest = hasher.digest []
      · simp [← h2]
      · simp [h1, h2]
  · rw [hnul]
    by_cases h1 : hasher.digest [] = hasher.digest [0]
    · simp [h1]
    · simp [h1]

/-- C17: the verdict of `verifyDataDigest` does not depend on what the hasher
had absorbed before the call: for two prior states of a hasher of the same
algorithm, every data and every digest, both calls return the same result,
and it is success exactly when the digest is the hash of the data alone. -/
theorem verifyDataDigest_prior_state (alg : Bytes → Bytes) (w₁ w₂ data digest : Bytes) :
    (verifyDataDigest { digest := alg, written := w₁ } data digest).1 =
      (verifyDataDigest { digest := alg, written := w₂ } data digest).1 ∧
    ((verifyDataDigest { digest := alg, written := w₁ } data digest).1 = .ok () ↔
      digest = alg data) := by
  simp only [verifyDataDigest_eq, true_and]
  by_cases h : digest = alg data
  · simp [h]
  · simp [h]

/-- C18: `verifyDataDigest` leaves the hasher reset (nothing written, same
algorithm) whether it succeeds or fails; `verifyNullTerminatedDataDigest`
leaves the hasher reset when the data ends in NUL and leaves it as it was
otherwise, which is exactly when it returns the precondition error. -/
theorem verifiers_hasher_state (hasher : hash.Hash) (data digest : Bytes) :
    ((verifyDataDigest hasher data digest).2 = hasher.Reset ∧
      (verifyDataDigest hasher data digest).2.written = [] ∧
      (verifyDataDigest hasher data digest).2.digest = hasher.digest) ∧
    (verifyNullTerminatedDataDigest hasher data digest).2 =
      (if data.getLast? = some 0 then hasher.Reset else hasher) ∧
    ((verifyNullTerminatedDataDigest hasher data digest).1 = .error .notNullTerminated ↔
      data.getLast? ≠ some 0) := by
  refine ⟨⟨by rw [verifyDataDigest_eq], by rw [verifyDataDigest_eq]; rfl,
    by rw [verifyDataDigest_eq]; rfl⟩, ?_, ?_⟩
  · by_cases h : data.getLast? = some 0
    · rw [if_pos h, verifyNullTerminated_of_nul hasher data digest h]
    · rw [if_neg h, verifyNullTerminated_of_not_nul hasher data digest h]
  · by_cases h : data.getLast? = some 0
    · rw [verifyNullTerminated_of_nul hasher data digest h]
      simp only [h, ne_eq, not_true_eq_false, iff_false]
      split <;> [skip; split] <;> intro hc <;> cases hc
    · rw [verifyNullTerminated_of_not_nul hasher data digest h]
      simp [h]

/-- C19: the two digest verifiers agree on the supported algorithms: for every
slice and every event whose recorded digest has length 20, 32 or 48,
`DigestEquals` succeeds exactly when `verifyDataDigest` succeeds on the slice
and the recorded digest with a SHA-1, SHA-256 or SHA-384 hasher respectively,
whatever that hasher had absorbed before. -/
theorem verifiers_agree (A : crypto.Algorithms) (e : Event) (b w : Bytes)
    (h : e.Digest.length = 20 ∨ e.Digest.length = 32 ∨ e.Digest.length = 48) :
    DigestEquals A e b = .ok () ↔
      (verifyDataDigest
        (if e.Digest.length = 20 then (crypto.SHA1_New A).Write w
          else if e.Digest.length = 32 then (crypto.SHA256_New A).Write w
          else (crypto.SHA384_New A).Write w)
        b e.Digest).1 = .ok () := by
  rw [verifyDataDigest_eq]
  unfold DigestEquals
  simp only [Event.ReplayedDigest, crypto.SHA384_Size, crypto.SHA256_Size, crypto.SHA1_Size,
    crypto.SHA384_New, crypto.SHA256_New, crypto.SHA1_New, hash.Hash.Write, hash.Hash.Sum,
    bytes.Equal, List.nil_append, decide_eq_true_eq]
  rcases h with hl | hl | hl
  · simp only [hl]
    by_cases hd : e.Digest = A.sha1 b
    · simp [← hd]
    · simp [hd, Ne.symm hd]
  · simp only [hl]
    by_cases hd : e.Digest = A.sha256 b
    · simp [← hd]
    · simp [hd, Ne.symm hd]
  · simp only [hl]
    by_cases hd : e.Digest = A.sha384 b
    · simp [← hd]
    · simp [hd, Ne.symm hd]

/-- Instance of C19: a recorded digest that is the toy SHA-256 digest of the
slice `[5]`, against a SHA-256 hasher that had absorbed `[1, 2]`. -/
theorem verifiers_agree_witness :
    DigestEquals crypto.sample (eventWithDigest (crypto.sample.sha256 [5])) [5] = .ok () ∧
    (verifyDataDigest ((crypto.SHA256_New crypto.sample).Write [1, 2]) [5]
      (crypto.sample.sha256 [5])).1 = .ok () :=
  have h := verifiers_agree crypto.sample (eventWithDigest (crypto.sample.sha256 [5])) [5]
    [1, 2] (Or.inr (Or.inl rfl))
  ⟨rfl, h.mp rfl⟩

end extract
